import Mathlib

/-!
Verification of the VoiceInvoice invoice-data core.

This file shallowly embeds the invoice record model (`backend/models.py`),
the static lookup tables (`backend/config.py`), the reconciler
`autofill_invoice_data` (`backend/core/utils.py`) and the JSON-candidate
extraction step of `extract_and_validate_invoice_data`
(`backend/services/llm_service.py`).

Modelling conventions:
* Python floats are modelled as exact rationals (`ℚ`); `round(x, 2)` is
  modelled as round-half-to-even at two decimals (`round2`), Python's
  documented rounding mode.
* `datetime.now()` is modelled by an explicit `Date` parameter `now`;
  `datetime.strptime(s, "%Y-%m-%d")` by `parseDate`, `timedelta(days=30)`
  by `addDays`, and `strftime("%Y-%m-%d")` by `formatDate`.
* Optional / nullable fields are `Option`; Python truthiness tests on
  optional strings (`if not x:`) are modelled as `x = none ∨ x = some ""`.
-/

namespace VoiceInvoice

instance instDecEqExcept {ε α : Type} [DecidableEq ε] [DecidableEq α] :
    DecidableEq (Except ε α) := fun x y =>
  match x, y with
  | .ok a, .ok b =>
    if h : a = b then isTrue (h ▸ rfl) else isFalse (fun hh => h (Except.ok.inj hh))
  | .error e, .error f =>
    if h : e = f then isTrue (h ▸ rfl) else isFalse (fun hh => h (Except.error.inj hh))
  | .ok _, .error _ => isFalse (fun hh => Except.noConfusion hh)
  | .error _, .ok _ => isFalse (fun hh => Except.noConfusion hh)

/-- Round-half-to-even to the nearest integer, the rounding mode of
Python's builtin `round`. -/
def roundHalfEven (x : ℚ) : ℤ :=
  let f : ℤ := Int.floor x
  let r : ℚ := x - (f : ℚ)
  if r < 1/2 then f
  else if 1/2 < r then f + 1
  else if f.emod 2 = 0 then f else f + 1

/-- Model of Python's `round(x, 2)`: round half to even at two decimal
places. -/
def round2 (x : ℚ) : ℚ := ((roundHalfEven (100 * x) : ℤ) : ℚ) / 100

/-! ### Calendar dates

`utils.py` manipulates dates through `datetime.strptime`, `timedelta`
and `strftime`.  We model a date as a (proleptic Gregorian) triple and
implement exact day arithmetic through the standard civil-from-days /
days-from-civil conversions. -/

structure Date where
  year : Int
  month : Nat
  day : Nat
deriving DecidableEq, Repr

def isLeap (y : Int) : Bool :=
  (y.emod 4 = 0 && y.emod 100 ≠ 0) || y.emod 400 = 0

def daysInMonth (y : Int) (m : Nat) : Nat :=
  if m = 2 then (if isLeap y then 29 else 28)
  else if m = 4 ∨ m = 6 ∨ m = 9 ∨ m = 11 then 30
  else 31

/-- Number of days since 1970-01-01 of a civil date. -/
def daysFromCivil (dt : Date) : Int :=
  let y : Int := if dt.month ≤ 2 then dt.year - 1 else dt.year
  let era : Int := y.ediv 400
  let yoe : Int := y - era * 400
  let mp : Int := (Int.ofNat dt.month + 9).emod 12
  let doy : Int := (153 * mp + 2).ediv 5 + Int.ofNat dt.day - 1
  let doe : Int := yoe * 365 + yoe.ediv 4 - yoe.ediv 100 + doy
  era * 146097 + doe - 719468

/-- Civil date of a number of days since 1970-01-01. -/
def civilFromDays (z0 : Int) : Date :=
  let z : Int := z0 + 719468
  let era : Int := z.ediv 146097
  let doe : Int := z - era * 146097
  let yoe : Int := (doe - doe.ediv 1460 + doe.ediv 36524 - doe.ediv 146096).ediv 365
  let y : Int := yoe + era * 400
  let doy : Int := doe - (365 * yoe + yoe.ediv 4 - yoe.ediv 100)
  let mp : Int := (5 * doy + 2).ediv 153
  let d : Int := doy - (153 * mp + 2).ediv 5 + 1
  let m : Int := if mp < 10 then mp + 3 else mp - 9
  { year := if m ≤ 2 then y + 1 else y, month := m.toNat, day := d.toNat }

/-- Unbounded proleptic day arithmetic.  This is the value
`some_date + timedelta(days=n)` computes when it does not raise; CPython
itself raises `OverflowError` when the result leaves the
`datetime.min..datetime.max` range — that bound is modelled by
`addDaysE` below, and collapsed here. -/
def addDays (dt : Date) (n : Int) : Date :=
  civilFromDays (daysFromCivil dt + n)

/-- Exceptions of the date pass that escape its `except` clause.
`OverflowError` is an `ArithmeticError`, not a `ValueError` or
`TypeError`, so `utils.py` does not catch it. -/
inductive PyError where
  | OverflowError : PyError
deriving DecidableEq, Repr

/-- Model of `some_date + timedelta(days=n)` including CPython's range
check: `datetime.__add__` raises `OverflowError` when the result falls
outside `datetime.min..datetime.max`, i.e. outside years `1..9999`. -/
def addDaysE (dt : Date) (n : Int) : Except PyError Date :=
  let d := civilFromDays (daysFromCivil dt + n)
  if 1 ≤ d.year ∧ d.year ≤ 9999 then .ok d else .error .OverflowError

def pad2 (n : Nat) : String :=
  if n < 10 then "0" ++ toString n else toString n

def pad4 (n : Int) : String :=
  let s := toString n
  if 4 ≤ s.length then s
  else String.mk (List.replicate (4 - s.length) '0') ++ s

/-- Model of `strftime("%Y-%m-%d")`. -/
def formatDate (d : Date) : String :=
  pad4 d.year ++ "-" ++ pad2 d.month ++ "-" ++ pad2 d.day

def digit? (c : Char) : Option Nat :=
  if c.isDigit then some (c.toNat - 48) else none

/-- Model of CPython's 1-or-2-digit field patterns used by `strptime` for
`%m` (`1[0-2]|0[1-9]|[1-9]`) and `%d` (`3[01]|[12]\d|0[1-9]|[1-9]`):
two digits are consumed when they form a value in `1..hi`, otherwise a
single digit in `1..9` is consumed. -/
def parseNum2 (hi : Nat) : List Char → Option (Nat × List Char)
  | [] => none
  | c1 :: t =>
    match digit? c1 with
    | none => none
    | some d1 =>
      match t with
      | c2 :: t2 =>
        match digit? c2 with
        | some d2 =>
          if 1 ≤ 10 * d1 + d2 ∧ 10 * d1 + d2 ≤ hi then some (10 * d1 + d2, t2)
          else if 1 ≤ d1 ∧ d1 ≤ 9 then some (d1, t)
          else none
        | none => if 1 ≤ d1 ∧ d1 ≤ 9 then some (d1, t) else none
      | [] => if 1 ≤ d1 ∧ d1 ≤ 9 then some (d1, []) else none

/-- Model of `datetime.strptime(s, "%Y-%m-%d")`: a 4-digit year, `-`,
a 1-2 digit month, `-`, a 1-2 digit day, end of input; the resulting
triple must be a real calendar date with year at least 1 (otherwise
`strptime` / the `datetime` constructor raises `ValueError`). -/
def parseDate (s : String) : Option Date :=
  match s.toList with
  | c1 :: c2 :: c3 :: c4 :: rest =>
    match digit? c1, digit? c2, digit? c3, digit? c4 with
    | some a, some b, some c, some d =>
      let yr : Nat := 1000 * a + 100 * b + 10 * c + d
      match rest with
      | sep1 :: r1 =>
        if sep1 = '-' then
          match parseNum2 12 r1 with
          | some (m, r2) =>
            match r2 with
            | sep2 :: r3 =>
              if sep2 = '-' then
                match parseNum2 31 r3 with
                | some (dayv, r4) =>
                  if r4 = [] ∧ 1 ≤ yr ∧ dayv ≤ daysInMonth (Int.ofNat yr) m then
                    some { year := Int.ofNat yr, month := m, day := dayv }
                  else none
                | none => none
              else none
            | [] => none
          | none => none
        else none
      | [] => none
    | _, _, _, _ => none
  | _ => none

/-! ### Record model (`backend/models.py`)

`InvoiceItem`: `description`, `quantity` and `unit_price` are required
(`Field(...)`), with `quantity` and `unit_price` constrained `gt=0`;
`total` is optional.  `InvoiceData`: every scalar field is optional,
`items` defaults to `[]`, `tax_rate` defaults to `0.08` and is
constrained to `[0, 1]`. -/

structure InvoiceItem where
  description : String
  quantity : ℚ
  unit_price : ℚ
  total : Option ℚ
deriving DecidableEq, Repr

structure InvoiceData where
  client_name : Option String
  client_address : Option String
  invoice_number : Option String
  invoice_date : Option String
  due_date : Option String
  items : List InvoiceItem
  subtotal : Option ℚ
  tax_rate : Option ℚ
  tax_amount : Option ℚ
  grand_total : Option ℚ
  notes : Option String
deriving DecidableEq, Repr

/-! ### Lookup tables (`backend/config.py`)

Python dictionaries preserve insertion order, so both tables are
modelled as association lists in source order. -/

structure UserInfo where
  name : String
  address : String
  email : String
  default_tax_rate : ℚ
deriving DecidableEq, Repr

structure ItemInfo where
  description : String
  unit_price : ℚ
deriving DecidableEq, Repr

def user_db : List (String × UserInfo) :=
  [("john doe",
    { name := "John Doe", address := "123 Elm St, Springfield, IL",
      email := "john.doe@example.com", default_tax_rate := 0.07 }),
   ("acme corp",
    { name := "ACME Corporation", address := "456 Oak Ave, Metropolis, NY",
      email := "info@acmecorp.com", default_tax_rate := 0.09 })]

def item_db : List (String × ItemInfo) :=
  [("laptop", { description := "Laptop Computer", unit_price := 1200.00 }),
   ("keyboard", { description := "Mechanical Keyboard", unit_price := 75.00 }),
   ("mouse", { description := "Wireless Mouse", unit_price := 25.00 }),
   ("software license", { description := "Software License (Annual)", unit_price := 300.00 }),
   ("consulting services", { description := "Consulting Services (Hourly)", unit_price := 150.00 }),
   ("web development", { description := "Web Development Services", unit_price := 100.00 }),
   ("graphic design", { description := "Graphic Design Services", unit_price := 80.00 })]

/-- Lower-case an ASCII character, as Python's `str.lower` does on the
ASCII range (every string in this code base is ASCII). -/
def charLower (c : Char) : Char :=
  if 65 ≤ c.toNat ∧ c.toNat ≤ 90 then Char.ofNat (c.toNat + 32) else c

/-- Characters stripped by Python's `str.strip()` (ASCII whitespace
range). -/
def stripWs (c : Char) : Bool :=
  c = ' ' || c = '\t' || c = '\n' || c = '\r' || c = Char.ofNat 11 || c = Char.ofNat 12

/-- Model of Python's `s.lower().strip()`. -/
def pyNormalize (s : String) : String :=
  String.mk ((((s.toList.map charLower).dropWhile stripWs).reverse.dropWhile stripWs).reverse)

/-- Exact-key dictionary lookup, `user_db[normalized_client_name]`. -/
def lookupUser (key : String) : Option UserInfo :=
  (user_db.find? (fun p => p.1 = key)).map (·.2)

/-- Model of Python's `needle in hay` substring test. -/
def strContains (hay needle : String) : Bool :=
  decide (List.IsInfix needle.toList hay.toList)

/-- Scan of `item_db.items()` in insertion order for the first key that is
a substring of the normalized description (`if db_item in
normalized_description`), returning its `unit_price`. -/
def catalogLookup (normalizedDescription : String) : Option ℚ :=
  (item_db.find? (fun p => strContains normalizedDescription p.1)).map (·.2.unit_price)

/-! ### Reconciler (`autofill_invoice_data`, `backend/core/utils.py`)

The function is decomposed into its four sequential passes; the deep
copy at the top of the Python function is the identity in this pure
embedding (its aliasing content is verified separately on the heap
model below). -/

/-- Client-table pass of `autofill_invoice_data` (utils.py lines 34-42):
normalize `client_name`, look it up in `user_db`; fill a falsy
`client_address` from the match, and overwrite `tax_rate` from the
match's default only when it is `None` or the system default `0.08`. -/
def fillClient (r : InvoiceData) : InvoiceData :=
  match r.client_name with
  | none => r
  | some name =>
    if name = "" then r
    else
      match lookupUser (pyNormalize name) with
      | none => r
      | some info =>
        let addr := if r.client_address = none ∨ r.client_address = some ""
                    then some info.address else r.client_address
        let tr := if r.tax_rate = none ∨ r.tax_rate = some 0.08
                  then some info.default_tax_rate else r.tax_rate
        { r with client_address := addr, tax_rate := tr }

/-- Per-item body of the item loop (utils.py lines 44-57).  The guard
`not item.unit_price and item.description` is the Python truthiness
test `unit_price == 0 ∧ description ≠ ""`.  Since `quantity` and
`unit_price` are non-optional floats in `models.py`, the test
`item.quantity is not None and item.unit_price is not None` is
identically true and `total` is always recomputed; the `elif
item.total is None` default branch is unreachable. -/
def fillItem (it : InvoiceItem) : InvoiceItem :=
  let it1 :=
    if it.unit_price = 0 ∧ it.description ≠ "" then
      match catalogLookup (pyNormalize it.description) with
      | some p => { it with unit_price := p }
      | none => it
    else it
  { it1 with total := some (round2 (it1.quantity * it1.unit_price)) }

def fillItems (r : InvoiceData) : InvoiceData :=
  { r with items := r.items.map fillItem }

/-- Sum of the item totals that are set,
`sum(item.total for item in items if item.total is not None)`. -/
def sumTotals (l : List InvoiceItem) : ℚ :=
  (l.filterMap InvoiceItem.total).sum

/-- Monetary recomputation pass (utils.py lines 60-64). -/
def fillTotals (r : InvoiceData) : InvoiceData :=
  let st : ℚ := round2 (sumTotals r.items)
  let eff : ℚ := r.tax_rate.getD 0
  let ta : ℚ := round2 (st * eff)
  { r with subtotal := some st, tax_amount := some ta,
           grand_total := some (round2 (st + ta)) }

/-- Date pass (utils.py lines 67-75) on its non-raising domain: fill a
falsy `invoice_date` with the current date; fill a falsy `due_date`
with `invoice_date + 30 days` when `invoice_date` parses, falling back
to `now + 30 days` when `strptime` raises
(`except (ValueError, TypeError)`).  The `+ timedelta(days=30)` is
taken as unbounded `addDays`: the `OverflowError` that CPython raises
near `datetime.max` — which the `except` clause does *not* catch — is
modelled separately by the fallible `fillDatesE` below, which agrees
with this function whenever it returns. -/
def fillDates (now : Date) (r : InvoiceData) : InvoiceData :=
  let inv := if r.invoice_date = none ∨ r.invoice_date = some ""
             then some (formatDate now) else r.invoice_date
  let due :=
    if r.due_date = none ∨ r.due_date = some "" then
      some (match inv with
            | some s =>
              match parseDate s with
              | some d => formatDate (addDays d 30)
              | none => formatDate (addDays now 30)
            | none => formatDate (addDays now 30))
    else r.due_date
  { r with invoice_date := inv, due_date := due }

/-- Model of `autofill_invoice_data` (utils.py lines 18-77), with the
current processing date `now` passed explicitly, on the function's
non-raising domain (see `autofill_invoice_dataE` for the uncaught
`OverflowError` path of the date pass). -/
def autofill_invoice_data (now : Date) (r : InvoiceData) : InvoiceData :=
  fillDates now (fillTotals (fillItems (fillClient r)))

/-- Fallible embedding of the date pass (utils.py lines 67-75): the
`try` block catches only `(ValueError, TypeError)`, which covers a
failing `strptime` (modelled by `parseDate = none`), but not the
`OverflowError` that `invoice_date_dt + timedelta(days=30)` raises when
the parsed date lies within 30 days of `datetime.max` — that exception
propagates out of `autofill_invoice_data`. -/
def fillDatesE (now : Date) (r : InvoiceData) : Except PyError InvoiceData :=
  let inv := if r.invoice_date = none ∨ r.invoice_date = some ""
             then some (formatDate now) else r.invoice_date
  if r.due_date = none ∨ r.due_date = some "" then
    match inv with
    | some s =>
      match parseDate s with
      | some d =>
        match addDaysE d 30 with
        | .ok d30 => .ok { r with invoice_date := inv, due_date := some (formatDate d30) }
        | .error e => .error e
      | none =>
        match addDaysE now 30 with
        | .ok d30 => .ok { r with invoice_date := inv, due_date := some (formatDate d30) }
        | .error e => .error e
    | none =>
      match addDaysE now 30 with
      | .ok d30 => .ok { r with invoice_date := inv, due_date := some (formatDate d30) }
      | .error e => .error e
  else .ok { r with invoice_date := inv, due_date := r.due_date }

/-- Fallible embedding of `autofill_invoice_data`: every pass before
the date pass is exception-free, and the date pass may let an
`OverflowError` escape. -/
def autofill_invoice_dataE (now : Date) (r : InvoiceData) :
    Except PyError InvoiceData :=
  fillDatesE now (fillTotals (fillItems (fillClient r)))

/-! ### Structural validity

What pydantic construction guarantees for a record that was
successfully built: every item has strictly positive `quantity` and
`unit_price` (`gt=0`), and `tax_rate`, when set, lies in `[0, 1]`
(`ge=0, le=1`). -/

def validItem (it : InvoiceItem) : Prop :=
  0 < it.quantity ∧ 0 < it.unit_price

instance (it : InvoiceItem) : Decidable (validItem it) :=
  decidable_of_iff (0 < it.quantity ∧ 0 < it.unit_price) Iff.rfl

def taxOk : Option ℚ → Prop
  | none => True
  | some t => 0 ≤ t ∧ t ≤ 1

instance : (o : Option ℚ) → Decidable (taxOk o)
  | none => .isTrue trivial
  | some t => inferInstanceAs (Decidable (0 ≤ t ∧ t ≤ 1))

def validRecord (r : InvoiceData) : Prop :=
  (∀ it ∈ r.items, validItem it) ∧ taxOk r.tax_rate

instance (r : InvoiceData) : Decidable (validRecord r) :=
  decidable_of_iff ((∀ it ∈ r.items, validItem it) ∧ taxOk r.tax_rate) Iff.rfl

/-! ### JSON-candidate extraction
(`extract_and_validate_invoice_data`, `backend/services/llm_service.py`,
lines 166-189)

The code locates a JSON candidate with
`re.search(r"` ```json\s*(\{.*\})\s*``` `", raw, re.DOTALL)` and, failing
that, `re.search(r"(\{.*\})", raw, re.DOTALL)`, then runs `json.loads`
on the captured group.  Both regexes are embedded below with Python's
leftmost-then-greedy match semantics, over `List Char`. -/

def lbrace : Char := Char.ofNat 123

def rbrace : Char := Char.ofNat 125

def backtick : Char := Char.ofNat 96

/-- Characters matched by Python's regex `\s` (ASCII range). -/
def pyWs (c : Char) : Bool :=
  c = ' ' || c = '\t' || c = '\n' || c = '\r' || c = Char.ofNat 11 || c = Char.ofNat 12

def fence : List Char := [backtick, backtick, backtick]

def fenceJson : List Char := fence ++ ['j', 's', 'o', 'n']

/-- Greatest index `j` of the group-closing brace: `rest.getD j = rbrace`
and what follows `j` is whitespace and then a closing fence — the greedy
`.*` of `(\{.*\})\s*` followed by the fence takes the largest such `j`. -/
def lastCloseFence (rest : List Char) : Option Nat :=
  ((List.range rest.length).filter (fun j =>
      rest.getD j ' ' = rbrace &&
      fence.isPrefixOf ((rest.drop (j + 1)).dropWhile pyWs))).getLast?

/-- Attempt to match `` ```json\s*(\{.*\})\s*``` `` anchored at the head
of `l`, returning the captured group. -/
def fencedAt (l : List Char) : Option (List Char) :=
  if fenceJson.isPrefixOf l then
    let rest := (l.drop 7).dropWhile pyWs
    if rest.head? = some lbrace then
      match lastCloseFence rest with
      | some j => some (rest.take (j + 1))
      | none => none
    else none
  else none

/-- Leftmost match of the fenced-block regex: `re.search` tries each
start position from the left. -/
def findFencedAux : List Char → Option (List Char)
  | [] => none
  | c :: t =>
    match fencedAt (c :: t) with
    | some g => some g
    | none => findFencedAux t

/-- Leftmost-then-greedy match of `(\{.*\})` with `re.DOTALL`: from the
first `\x7b` that has a `\x7d` somewhere after it, through the last
`\x7d` of the text. -/
def findBraceAux : List Char → Option (List Char)
  | [] => none
  | c :: t =>
    if c = lbrace && t.contains rbrace then
      some (c :: (t.reverse.dropWhile (fun x => !(x = rbrace))).reverse)
    else findBraceAux t

/-- JSON-candidate location order of the code: the fenced form first,
then the bare greedy brace span. -/
def locateJson (raw : String) : Option String :=
  match findFencedAux raw.toList with
  | some g => some (String.mk g)
  | none => (findBraceAux raw.toList).map String.mk

/-! #### Validity in the sense of `json.loads`

A fuel-indexed recursive-descent acceptor for the grammar accepted by
Python's `json.loads` in its default configuration: RFC-8259 JSON plus
the constants `NaN`, `Infinity` and `-Infinity`; strict strings (no raw
control characters); no trailing commas; the whole input must be
consumed up to trailing JSON whitespace. -/

def jsonWsChar (c : Char) : Bool :=
  c = ' ' || c = '\t' || c = '\n' || c = '\r'

def skipJsonWs (l : List Char) : List Char :=
  l.dropWhile jsonWsChar

def isHexDigit (c : Char) : Bool :=
  c.isDigit || ('a' ≤ c && c ≤ 'f') || ('A' ≤ c && c ≤ 'F')

/-- Accept the remainder of a JSON string after the opening quote,
returning what follows the closing quote. -/
def jsonStringRest : List Char → Option (List Char)
  | [] => none
  | c :: t =>
    if c = '"' then some t
    else if c = '\\' then
      match t with
      | [] => none
      | e :: t2 =>
        if e = '"' || e = '\\' || e = '/' || e = 'b' || e = 'f' ||
           e = 'n' || e = 'r' || e = 't' then jsonStringRest t2
        else if e = 'u' then
          match t2 with
          | h1 :: h2 :: h3 :: h4 :: t3 =>
            if isHexDigit h1 && isHexDigit h2 && isHexDigit h3 && isHexDigit h4 then
              jsonStringRest t3
            else none
          | _ => none
        else none
    else if c.toNat < 32 then none
    else jsonStringRest t

/-- Accept `(\.\d+)?` after the integer part of a JSON number. -/
def jsonFracRest (l : List Char) : Option (List Char) :=
  match l with
  | '.' :: t1 =>
    match t1 with
    | d :: _ => if d.isDigit then some (t1.dropWhile Char.isDigit) else none
    | [] => none
  | _ => some l

/-- Accept `([eE][+-]?\d+)?` after the fractional part of a JSON
number. -/
def jsonExpRest (l : List Char) : Option (List Char) :=
  match l with
  | e :: t2 =>
    if e = 'e' || e = 'E' then
      let t3 := match t2 with
                | s :: t3' => if s = '+' || s = '-' then t3' else t2
                | [] => t2
      match t3 with
      | d :: _ => if d.isDigit then some (t3.dropWhile Char.isDigit) else none
      | [] => none
    else some l
  | [] => some l

/-- Accept the digits-and-beyond part of a JSON number after an optional
leading minus: `(0|[1-9]\d*)(\.\d+)?([eE][+-]?\d+)?`. -/
def jsonNumberRest (l : List Char) : Option (List Char) :=
  let intPart : Option (List Char) :=
    match l with
    | [] => none
    | c :: t =>
      if c = '0' then some t
      else if c.isDigit then some (t.dropWhile Char.isDigit)
      else none
  (intPart.bind jsonFracRest).bind jsonExpRest

mutual

/-- Accept one JSON value at the head of the input (no leading
whitespace), returning the rest. -/
def jsonValue (fuel : Nat) (l : List Char) : Option (List Char) :=
  match fuel with
  | 0 => none
  | fuel + 1 =>
    match l with
    | [] => none
    | c :: t =>
      if c = lbrace then jsonMembers fuel (skipJsonWs t) true
      else if c = '[' then jsonElements fuel (skipJsonWs t) true
      else if c = '"' then jsonStringRest t
      else if c = '-' then
        match t with
        | 'I' :: _ => if ['I','n','f','i','n','i','t','y'].isPrefixOf t then some (t.drop 8) else none
        | _ => jsonNumberRest t
      else if c.isDigit then jsonNumberRest (c :: t)
      else if c = 't' then (if ['r','u','e'].isPrefixOf t then some (t.drop 3) else none)
      else if c = 'f' then (if ['a','l','s','e'].isPrefixOf t then some (t.drop 4) else none)
      else if c = 'n' then (if ['u','l','l'].isPrefixOf t then some (t.drop 3) else none)
      else if c = 'N' then (if ['a','N'].isPrefixOf t then some (t.drop 2) else none)
      else if c = 'I' then
        (if ['n','f','i','n','i','t','y'].isPrefixOf t then some (t.drop 7) else none)
      else none

/-- Accept the members of a JSON object after the opening brace and
leading whitespace; `first` is true before any member was read. -/
def jsonMembers (fuel : Nat) (l : List Char) (first : Bool) : Option (List Char) :=
  match fuel with
  | 0 => none
  | fuel + 1 =>
    match l with
    | [] => none
    | c :: t =>
      if c = rbrace && first then some t
      else if c = '"' then
        (jsonStringRest t).bind (fun afterKey =>
          match skipJsonWs afterKey with
          | ':' :: afterColon =>
            (jsonValue fuel (skipJsonWs afterColon)).bind (fun afterVal =>
              match skipJsonWs afterVal with
              | c2 :: t2 =>
                if c2 = rbrace then some t2
                else if c2 = ',' then jsonMembers fuel (skipJsonWs t2) false
                else none
              | [] => none)
          | _ => none)
      else none

/-- Accept the elements of a JSON array after the opening bracket and
leading whitespace; `first` is true before any element was read. -/
def jsonElements (fuel : Nat) (l : List Char) (first : Bool) : Option (List Char) :=
  match fuel with
  | 0 => none
  | fuel + 1 =>
    match l with
    | [] => none
    | c :: t =>
      if c = ']' && first then some t
      else
        (jsonValue fuel l).bind (fun afterVal =>
          match skipJsonWs afterVal with
          | c2 :: t2 =>
            if c2 = ']' then some t2
            else if c2 = ',' then jsonElements fuel (skipJsonWs t2) false
            else none
          | [] => none)

end

/-- Acceptance by `json.loads`: one value, surrounded only by JSON
whitespace. -/
def jsonValid (s : String) : Bool :=
  match jsonValue (s.length + 1) (skipJsonWs s.toList) with
  | some rest => skipJsonWs rest = []
  | none => false

/-- Failure kinds of the extraction step: `NoJsonFound` is the
`ValueError` raised when neither regex matches; `MalformedJson` carries
the located span on which `json.loads` raised `JSONDecodeError`. -/
inductive ExtractErr where
  | NoJsonFound : ExtractErr
  | MalformedJson : String → ExtractErr
deriving DecidableEq, Repr

/-- JSON-candidate extraction steps of
`extract_and_validate_invoice_data` (llm_service.py lines 167-189), up
to and including the `json.loads` check. -/
def extractJsonStr (raw : String) : Except ExtractErr String :=
  match locateJson raw with
  | none => .error .NoJsonFound
  | some span => if jsonValid span then .ok span else .error (.MalformedJson span)

/-! ### Pydantic construction (`backend/models.py`)

Pydantic v2 validates every declared field eagerly and raises a single
`ValidationError` carrying the locations of *all* violated fields, in
field-declaration order.  A payload field is `none` when the key is
absent from the input object. -/

structure ItemPayload where
  description : Option String
  quantity : Option ℚ
  unit_price : Option ℚ
  total : Option ℚ
deriving DecidableEq, Repr

/-- Locations of the violated fields of an `InvoiceItem` payload, in
declaration order: `description` is required; `quantity` and
`unit_price` are required and `gt=0`; `total` is unconstrained. -/
def itemViolations (p : ItemPayload) : List String :=
  (match p.description with
   | none => ["description"]
   | some _ => []) ++
  (match p.quantity with
   | none => ["quantity"]
   | some q => if q ≤ 0 then ["quantity"] else []) ++
  (match p.unit_price with
   | none => ["unit_price"]
   | some u => if u ≤ 0 then ["unit_price"] else [])

/-- Hook `InvoiceItem.model_post_init`: compute `total` only when it was
not provided. -/
def itemPostInit (it : InvoiceItem) : InvoiceItem :=
  if it.total = none then
    { it with total := some (round2 (it.quantity * it.unit_price)) }
  else it

/-- Construction of an `InvoiceItem`: succeeds exactly when every field
constraint holds, then runs `model_post_init`; otherwise fails with the
full list of violated fields. -/
def mkInvoiceItem (p : ItemPayload) : Except (List String) InvoiceItem :=
  match p.description, p.quantity, p.unit_price with
  | some d, some q, some u =>
    if 0 < q ∧ 0 < u then
      .ok (itemPostInit { description := d, quantity := q, unit_price := u, total := p.total })
    else .error (itemViolations p)
  | _, _, _ => .error (itemViolations p)

/-- Payload of an `InvoiceData` object.  `tax_rate` distinguishes an
absent key (outer `none`, defaulted to `0.08` by the model) from an
explicit JSON `null` (`some none`, accepted by `Optional`). -/
structure RecordPayload where
  client_name : Option String
  client_address : Option String
  invoice_number : Option String
  invoice_date : Option String
  due_date : Option String
  items : List ItemPayload
  subtotal : Option ℚ
  tax_rate : Option (Option ℚ)
  tax_amount : Option ℚ
  grand_total : Option ℚ
  notes : Option String
deriving DecidableEq, Repr

/-- Locations of the violated fields of an `InvoiceData` payload, in
declaration order: nested item errors (prefixed `items.<index>.`), then
the `ge=0, le=1` constraint on an explicitly supplied `tax_rate`. -/
def recordViolations (p : RecordPayload) : List String :=
  (p.items.enum.map (fun pr =>
      (itemViolations pr.2).map (fun f => "items." ++ toString pr.1 ++ "." ++ f))).flatten ++
  (match p.tax_rate with
   | some (some t) => if 0 ≤ t ∧ t ≤ 1 then [] else ["tax_rate"]
   | _ => [])

/-- Hook `InvoiceData.model_post_init`: ensure the item totals are set,
then always recompute `subtotal` (`0.0` for an empty item list),
`tax_amount` (with `tax_rate` treated as `0` when `None`) and
`grand_total`. -/
def dataPostInit (r : InvoiceData) : InvoiceData :=
  let items := r.items.map (fun it =>
    if it.total = none then
      { it with total := some (round2 (it.quantity * it.unit_price)) }
    else it)
  let st : ℚ := if items = [] then 0 else round2 (sumTotals items)
  let eff : ℚ := r.tax_rate.getD 0
  let ta : ℚ := round2 (st * eff)
  { r with items := items, subtotal := some st, tax_amount := some ta,
           grand_total := some (round2 (st + ta)) }

/-- Construction of an `InvoiceData`: succeeds exactly when no field of
the record or of a nested item violates its constraint, then runs
`model_post_init`; otherwise fails with the full list of violated
fields. -/
def mkInvoiceData (p : RecordPayload) : Except (List String) InvoiceData :=
  if recordViolations p = [] then
    .ok (dataPostInit
      { client_name := p.client_name, client_address := p.client_address,
        invoice_number := p.invoice_number, invoice_date := p.invoice_date,
        due_date := p.due_date,
        items := p.items.filterMap (fun ip => (mkInvoiceItem ip).toOption),
        subtotal := p.subtotal,
        tax_rate := (p.tax_rate.getD (some 0.08)),
        tax_amount := p.tax_amount, grand_total := p.grand_total,
        notes := p.notes })
  else .error (recordViolations p)

/-! ### Heap model of the item objects

`autofill_invoice_data` receives a Python object whose `items` field is
a list of references to mutable `InvoiceItem` objects.  The code first
takes `model_copy(deep=True)` and then mutates only the copy (including
the item objects reached through it).  To verify this copy-on-reconcile
claim we re-run the function over an explicit item heap: `InvoiceObj`
holds the scalar fields by value and its items by reference. -/

abbrev Heap := List InvoiceItem

def defaultItem : InvoiceItem :=
  { description := "", quantity := 0, unit_price := 0, total := none }

structure InvoiceObj where
  client_name : Option String
  client_address : Option String
  invoice_number : Option String
  invoice_date : Option String
  due_date : Option String
  itemRefs : List Nat
  subtotal : Option ℚ
  tax_rate : Option ℚ
  tax_amount : Option ℚ
  grand_total : Option ℚ
  notes : Option String
deriving DecidableEq, Repr

/-- The record value a caller observes through an object: scalars by
value, items dereferenced through the heap. -/
def viewRecord (σ : Heap) (o : InvoiceObj) : InvoiceData :=
  { client_name := o.client_name, client_address := o.client_address,
    invoice_number := o.invoice_number, invoice_date := o.invoice_date,
    due_date := o.due_date,
    items := o.itemRefs.map (fun i => σ.getD i defaultItem),
    subtotal := o.subtotal, tax_rate := o.tax_rate,
    tax_amount := o.tax_amount, grand_total := o.grand_total,
    notes := o.notes }

def objOfRecord (r : InvoiceData) (refs : List Nat) : InvoiceObj :=
  { client_name := r.client_name, client_address := r.client_address,
    invoice_number := r.invoice_number, invoice_date := r.invoice_date,
    due_date := r.due_date, itemRefs := refs,
    subtotal := r.subtotal, tax_rate := r.tax_rate,
    tax_amount := r.tax_amount, grand_total := r.grand_total,
    notes := r.notes }

/-- Heap-level rerun of `autofill_invoice_data`: `model_copy(deep=True)`
allocates fresh copies of the item objects at the end of the heap; the
item loop then mutates those fresh objects in place; the scalar passes
update the copied record value. -/
def autofillObj (now : Date) (σ : Heap) (o : InvoiceObj) : Heap × InvoiceObj :=
  let copied : List InvoiceItem := o.itemRefs.map (fun i => σ.getD i defaultItem)
  let σ1 : Heap := σ ++ copied
  let refs : List Nat := List.range' σ.length copied.length
  let σ2 : Heap := refs.foldl (fun h i => h.set i (fillItem (h.getD i defaultItem))) σ1
  let scal : InvoiceData :=
    fillDates now (fillTotals
      { fillClient (viewRecord σ o) with
        items := refs.map (fun i => σ2.getD i defaultItem) })
  (σ2, objOfRecord scal refs)

/-! ### Field-preservation lemmas for the reconciler passes -/

@[simp] theorem fillClient_client_name (r : InvoiceData) :
    (fillClient r).client_name = r.client_name := by
  unfold fillClient; repeat' split
  all_goals rfl

@[simp] theorem fillClient_invoice_number (r : InvoiceData) :
    (fillClient r).invoice_number = r.invoice_number := by
  unfold fillClient; repeat' split
  all_goals rfl

@[simp] theorem fillClient_invoice_date (r : InvoiceData) :
    (fillClient r).invoice_date = r.invoice_date := by
  unfold fillClient; repeat' split
  all_goals rfl

@[simp] theorem fillClient_due_date (r : InvoiceData) :
    (fillClient r).due_date = r.due_date := by
  unfold fillClient; repeat' split
  all_goals rfl

@[simp] theorem fillClient_items (r : InvoiceData) :
    (fillClient r).items = r.items := by
  unfold fillClient; repeat' split
  all_goals rfl

@[simp] theorem fillClient_subtotal (r : InvoiceData) :
    (fillClient r).subtotal = r.subtotal := by
  unfold fillClient; repeat' split
  all_goals rfl

@[simp] theorem fillClient_tax_amount (r : InvoiceData) :
    (fillClient r).tax_amount = r.tax_amount := by
  unfold fillClient; repeat' split
  all_goals rfl

@[simp] theorem fillClient_grand_total (r : InvoiceData) :
    (fillClient r).grand_total = r.grand_total := by
  unfold fillClient; repeat' split
  all_goals rfl

@[simp] theorem fillClient_notes (r : InvoiceData) :
    (fillClient r).notes = r.notes := by
  unfold fillClient; repeat' split
  all_goals rfl

@[simp] theorem fillItems_client_name (r : InvoiceData) :
    (fillItems r).client_name = r.client_name := rfl

@[simp] theorem fillItems_client_address (r : InvoiceData) :
    (fillItems r).client_address = r.client_address := rfl

@[simp] theorem fillItems_invoice_date (r : InvoiceData) :
    (fillItems r).invoice_date = r.invoice_date := rfl

@[simp] theorem fillItems_due_date (r : InvoiceData) :
    (fillItems r).due_date = r.due_date := rfl

@[simp] theorem fillItems_tax_rate (r : InvoiceData) :
    (fillItems r).tax_rate = r.tax_rate := rfl

@[simp] theorem fillItems_items (r : InvoiceData) :
    (fillItems r).items = r.items.map fillItem := rfl

@[simp] theorem fillTotals_client_name (r : InvoiceData) :
    (fillTotals r).client_name = r.client_name := rfl

@[simp] theorem fillTotals_client_address (r : InvoiceData) :
    (fillTotals r).client_address = r.client_address := rfl

@[simp] theorem fillTotals_invoice_date (r : InvoiceData) :
    (fillTotals r).invoice_date = r.invoice_date := rfl

@[simp] theorem fillTotals_due_date (r : InvoiceData) :
    (fillTotals r).due_date = r.due_date := rfl

@[simp] theorem fillTotals_tax_rate (r : InvoiceData) :
    (fillTotals r).tax_rate = r.tax_rate := rfl

@[simp] theorem fillTotals_items (r : InvoiceData) :
    (fillTotals r).items = r.items := rfl

@[simp] theorem fillTotals_subtotal (r : InvoiceData) :
    (fillTotals r).subtotal = some (round2 (sumTotals r.items)) := rfl

@[simp] theorem fillTotals_tax_amount (r : InvoiceData) :
    (fillTotals r).tax_amount =
      some (round2 (round2 (sumTotals r.items) * r.tax_rate.getD 0)) := rfl

@[simp] theorem fillTotals_grand_total (r : InvoiceData) :
    (fillTotals r).grand_total =
      some (round2 (round2 (sumTotals r.items) +
        round2 (round2 (sumTotals r.items) * r.tax_rate.getD 0))) := rfl

@[simp] theorem fillDates_client_name (now : Date) (r : InvoiceData) :
    (fillDates now r).client_name = r.client_name := rfl

@[simp] theorem fillDates_client_address (now : Date) (r : InvoiceData) :
    (fillDates now r).client_address = r.client_address := rfl

@[simp] theorem fillDates_items (now : Date) (r : InvoiceData) :
    (fillDates now r).items = r.items := rfl

@[simp] theorem fillDates_subtotal (now : Date) (r : InvoiceData) :
    (fillDates now r).subtotal = r.subtotal := rfl

@[simp] theorem fillDates_tax_rate (now : Date) (r : InvoiceData) :
    (fillDates now r).tax_rate = r.tax_rate := rfl

@[simp] theorem fillDates_tax_amount (now : Date) (r : InvoiceData) :
    (fillDates now r).tax_amount = r.tax_amount := rfl

@[simp] theorem fillDates_grand_total (now : Date) (r : InvoiceData) :
    (fillDates now r).grand_total = r.grand_total := rfl

theorem fillDates_invoice_date (now : Date) (r : InvoiceData) :
    (fillDates now r).invoice_date =
      (if r.invoice_date = none ∨ r.invoice_date = some ""
       then some (formatDate now) else r.invoice_date) := rfl

theorem fillDates_due_date (now : Date) (r : InvoiceData) :
    (fillDates now r).due_date =
      (if r.due_date = none ∨ r.due_date = some "" then
        some (match (if r.invoice_date = none ∨ r.invoice_date = some ""
                     then some (formatDate now) else r.invoice_date) with
              | some s =>
                match parseDate s with
                | some d => formatDate (addDays d 30)
                | none => formatDate (addDays now 30)
              | none => formatDate (addDays now 30))
       else r.due_date) := rfl

/-! ### Facts about the static tables -/

theorem user_db_entry_facts :
    ∀ pr ∈ user_db, pr.2.address ≠ "" ∧ pr.2.default_tax_rate ≠ (0.08 : ℚ) ∧
      0 ≤ pr.2.default_tax_rate ∧ pr.2.default_tax_rate ≤ 1 := by
  with_unfolding_all decide

theorem item_db_entry_facts :
    ∀ pr ∈ item_db, 0 < pr.2.unit_price := by
  with_unfolding_all decide

theorem lookupUser_mem {key : String} {info : UserInfo}
    (h : lookupUser key = some info) : ∃ k, (k, info) ∈ user_db := by
  unfold lookupUser at h
  rcases Option.map_eq_some'.mp h with ⟨pr, hfind, hval⟩
  subst hval
  exact ⟨pr.1, List.mem_of_find?_eq_some hfind⟩

theorem lookupUser_facts {key : String} {info : UserInfo}
    (h : lookupUser key = some info) :
    info.address ≠ "" ∧ info.default_tax_rate ≠ (0.08 : ℚ) ∧
      0 ≤ info.default_tax_rate ∧ info.default_tax_rate ≤ 1 := by
  rcases lookupUser_mem h with ⟨k, hk⟩
  simpa using user_db_entry_facts (k, info) hk

theorem catalogLookup_pos {d : String} {p : ℚ}
    (h : catalogLookup d = some p) : 0 < p := by
  unfold catalogLookup at h
  rcases Option.map_eq_some'.mp h with ⟨pr, hfind, hval⟩
  have := item_db_entry_facts pr (List.mem_of_find?_eq_some hfind)
  simpa [hval] using this

/-! ### How `fillClient` acts on `tax_rate` -/

theorem fillClient_tax_rate_update {r : InvoiceData} {name : String}
    {info : UserInfo} (h1 : r.client_name = some name) (h2 : name ≠ "")
    (h3 : lookupUser (pyNormalize name) = some info) :
    (fillClient r).tax_rate =
      (if r.tax_rate = none ∨ r.tax_rate = some 0.08
       then some info.default_tax_rate else r.tax_rate) := by
  simp only [fillClient, h1]
  rw [if_neg h2, h3]

theorem autofill_tax_rate (now : Date) (r : InvoiceData) :
    (autofill_invoice_data now r).tax_rate = (fillClient r).tax_rate := by
  unfold autofill_invoice_data
  simp

/-- C4, main theorem.
For every record whose (normalized, non-empty) `client_name` matches the
client table, reconciliation sets `tax_rate` to the client's
`default_tax_rate` when the incoming `tax_rate` is unset or equal to the
system default `0.08`, and leaves any other explicitly supplied
`tax_rate` unchanged. -/
theorem client_tax_rate_non_destructive (now : Date) (r : InvoiceData)
    (name : String) (info : UserInfo)
    (h1 : r.client_name = some name) (h2 : name ≠ "")
    (h3 : lookupUser (pyNormalize name) = some info) :
    ((r.tax_rate = none ∨ r.tax_rate = some 0.08) →
        (autofill_invoice_data now r).tax_rate = some info.default_tax_rate)
    ∧ (¬(r.tax_rate = none ∨ r.tax_rate = some 0.08) →
        (autofill_invoice_data now r).tax_rate = r.tax_rate) := by
  rw [autofill_tax_rate, fillClient_tax_rate_update h1 h2 h3]
  constructor
  · intro h; rw [if_pos h]
  · intro h; rw [if_neg h]

def acmeRecord : InvoiceData :=
  { client_name := some "ACME Corp", client_address := none,
    invoice_number := none, invoice_date := none, due_date := none,
    items := [], subtotal := none, tax_rate := some 0.05,
    tax_amount := none, grand_total := none, notes := none }

def acmeInfo : UserInfo :=
  { name := "ACME Corporation", address := "456 Oak Ave, Metropolis, NY",
    email := "info@acmecorp.com", default_tax_rate := 0.09 }

/-- C4, witness.
An explicit `tax_rate = 0.05` against client `"ACME Corp"` (whose table
default is `0.09`) survives reconciliation unchanged. -/
theorem client_tax_rate_non_destructive_witness :
    (autofill_invoice_data ⟨2026, 10, 12⟩ acmeRecord).tax_rate = some 0.05 :=
  (client_tax_rate_non_destructive ⟨2026, 10, 12⟩ acmeRecord "ACME Corp" acmeInfo
    rfl (by decide) (by with_unfolding_all decide)).2 (by with_unfolding_all decide)

/-! ### C10: an explicitly supplied inconsistent `total` -/

def bareRecord (its : List InvoiceItem) : InvoiceData :=
  { client_name := none, client_address := none, invoice_number := none,
    invoice_date := none, due_date := none, items := its,
    subtotal := none, tax_rate := none, tax_amount := none,
    grand_total := none, notes := none }

/-- C10, main theorem.
An `InvoiceItem` constructed with an explicit `total` different from
`round(quantity * unit_price, 2)` is accepted and keeps the supplied
total (`model_post_init` only computes an absent total), and a
reconciliation pass silently replaces it with the recomputed value. -/
theorem inconsistent_total_kept_then_recomputed (now : Date) (d : String)
    (q u t : ℚ) (hq : 0 < q) (hu : 0 < u) (ht : t ≠ round2 (q * u)) :
    mkInvoiceItem { description := some d, quantity := some q,
                    unit_price := some u, total := some t }
      = .ok { description := d, quantity := q, unit_price := u, total := some t }
    ∧ (autofill_invoice_data now
        (bareRecord [{ description := d, quantity := q, unit_price := u,
                       total := some t }])).items.map InvoiceItem.total
      = [some (round2 (q * u))]
    ∧ some t ≠ some (round2 (q * u)) := by
  refine ⟨?_, ?_, ?_⟩
  · simp [mkInvoiceItem, itemPostInit, hq, hu]
  · simp only [autofill_invoice_data, fillDates_items, fillTotals_items,
      fillItems_items, fillClient_items]
    simp [bareRecord, fillItem, hu.ne']
  · simpa using ht

/-- C10, witness. -/
theorem inconsistent_total_witness :
    mkInvoiceItem { description := some "Laptop", quantity := some 2,
                    unit_price := some 3, total := some 100 }
      = .ok { description := "Laptop", quantity := 2, unit_price := 3, total := some 100 }
    ∧ (autofill_invoice_data ⟨2026, 10, 12⟩
        (bareRecord [{ description := "Laptop", quantity := 2, unit_price := 3,
                       total := some 100 }])).items.map InvoiceItem.total
      = [some (round2 ((2 : ℚ) * 3))]
    ∧ some (100 : ℚ) ≠ some (round2 ((2 : ℚ) * 3)) :=
  inconsistent_total_kept_then_recomputed ⟨2026, 10, 12⟩ "Laptop" 2 3 100
    (by with_unfolding_all decide) (by with_unfolding_all decide)
    (by with_unfolding_all decide)

/-! ### C3: the catalog-fill branch is unreachable for constructed items -/

/-- C3, code evaluated at the failing input.
The spec's catalog-fill example item (`description` only, no
`unit_price`) is rejected at construction, because `models.py` declares
`unit_price` as a required `gt=0` field — even though `item_db` would
have matched `"keyboard"` at `75.00`, and even though the loop in
`autofill_invoice_data` guards on `not item.unit_price`, which can never
hold for a constructed item.  The third conjunct shows the guard is dead
under structural validity: `unit_price` is never rewritten. -/
theorem keyboard_item_rejected_at_construction :
    mkInvoiceItem { description := some "Mechanical Keyboard Pro",
                    quantity := some 2, unit_price := none, total := none }
      = .error ["unit_price"]
    ∧ catalogLookup (pyNormalize "Mechanical Keyboard Pro") = some 75.00
    ∧ (fillItem { description := "Mechanical Keyboard Pro", quantity := 2,
                  unit_price := 5, total := none }).unit_price = 5 := by
  refine ⟨by with_unfolding_all decide, by with_unfolding_all decide, ?_⟩
  simp [fillItem]

/-! ### C9: eager construction listing every violated field -/

theorem itemViolations_spec (p : ItemPayload) :
    ("description" ∈ itemViolations p ↔ p.description = none) ∧
    ("quantity" ∈ itemViolations p ↔
      p.quantity = none ∨ ∃ q, p.quantity = some q ∧ q ≤ 0) ∧
    ("unit_price" ∈ itemViolations p ↔
      p.unit_price = none ∨ ∃ u, p.unit_price = some u ∧ u ≤ 0) := by
  obtain ⟨d, q, u, t⟩ := p
  rcases d with _ | d <;> rcases q with _ | q <;> rcases u with _ | u <;>
    simp only [itemViolations] <;> (try split_ifs) <;>
    simp_all [List.mem_append]

theorem mkInvoiceItem_error {p : ItemPayload} {es : List String}
    (h : mkInvoiceItem p = .error es) :
    es = itemViolations p ∧ itemViolations p ≠ [] := by
  obtain ⟨d, q, u, t⟩ := p
  rcases d with _ | d <;> rcases q with _ | q <;> rcases u with _ | u <;>
    simp only [mkInvoiceItem] at h
  case some.some.some =>
    split at h
    · exact absurd h (by simp)
    · next hneg =>
      refine ⟨(Except.error.inj h).symm, ?_⟩
      rcases not_and_or.mp hneg with hq | hu
      · simp [itemViolations, not_lt.mp hq]
      · simp [itemViolations, not_lt.mp hu]
  all_goals
    exact ⟨(Except.error.inj h).symm, by simp [itemViolations]⟩

def badRecordPayload : RecordPayload :=
  { client_name := none, client_address := none, invoice_number := none,
    invoice_date := none, due_date := none,
    items := [{ description := some "W", quantity := some (-1),
                unit_price := some 5, total := none }],
    subtotal := none, tax_rate := some (some 2), tax_amount := none,
    grand_total := none, notes := none }

/-- C9, main theorem.
Construction validates all field constraints eagerly and fails with the
full list of violated fields: membership in the error list is exactly
violation of the corresponding constraint, the error list is never
empty, `quantity = -1` yields exactly `["quantity"]`, a payload
violating three item fields lists all three, and an `InvoiceData`
payload with a bad nested item and a bad `tax_rate` lists both. -/
theorem construction_lists_all_violations :
    (∀ p es, mkInvoiceItem p = .error es →
      es ≠ [] ∧
      ("description" ∈ es ↔ p.description = none) ∧
      ("quantity" ∈ es ↔ p.quantity = none ∨ ∃ q, p.quantity = some q ∧ q ≤ 0) ∧
      ("unit_price" ∈ es ↔ p.unit_price = none ∨ ∃ u, p.unit_price = some u ∧ u ≤ 0))
    ∧ mkInvoiceItem { description := some "Widget", quantity := some (-1),
                      unit_price := some 10, total := none } = .error ["quantity"]
    ∧ mkInvoiceItem { description := none, quantity := some (-1),
                      unit_price := none, total := none }
        = .error ["description", "quantity", "unit_price"]
    ∧ mkInvoiceData badRecordPayload = .error ["items.0.quantity", "tax_rate"] := by
  refine ⟨?_, by with_unfolding_all decide, by with_unfolding_all decide,
    by with_unfolding_all decide⟩
  intro p es h
  obtain ⟨hes, hne⟩ := mkInvoiceItem_error h
  subst hes
  exact ⟨hne, itemViolations_spec p⟩

/-- C9, witness. -/
theorem construction_violation_witness :
    ("quantity" ∈ (["quantity"] : List String) ↔
      (some (-1 : ℚ) = none ∨ ∃ q, some (-1 : ℚ) = some q ∧ q ≤ 0)) :=
  (construction_lists_all_violations.1
    { description := some "Widget", quantity := some (-1),
      unit_price := some 10, total := none }
    ["quantity"] (by with_unfolding_all decide)).2.2.1

/-! ### C6: the two extraction failure kinds -/

theorem findBraceAux_none {l : List Char} (h : lbrace ∉ l) :
    findBraceAux l = none := by
  induction l with
  | nil => rfl
  | cons c t ih =>
    have hc : c ≠ lbrace := fun he => h (he ▸ List.mem_cons_self c t)
    have ht : lbrace ∉ t := fun hm => h (List.mem_cons_of_mem c hm)
    simp only [findBraceAux]
    rw [if_neg (by simp [hc]), ih ht]

theorem mem_of_head?_dropWhile_drop {l : List Char} {c : Char} {n : Nat}
    {p : Char → Bool} (h : ((l.drop n).dropWhile p).head? = some c) : c ∈ l := by
  cases hd : (l.drop n).dropWhile p with
  | nil => rw [hd] at h; cases h
  | cons x xs =>
    rw [hd] at h
    have hx : c ∈ (l.drop n).dropWhile p := by
      rw [hd]; exact (Option.some.injEq _ _ ▸ h : x = c) ▸ List.mem_cons_self x xs
    exact (List.drop_sublist n l).subset ((List.dropWhile_sublist p).subset hx)

theorem fencedAt_none {l : List Char} (h : lbrace ∉ l) : fencedAt l = none := by
  unfold fencedAt
  split
  · rw [if_neg]
    intro hh
    exact h (mem_of_head?_dropWhile_drop hh)
  · rfl

theorem findFencedAux_none {l : List Char} (h : lbrace ∉ l) :
    findFencedAux l = none := by
  induction l with
  | nil => rfl
  | cons c t ih =>
    have ht : lbrace ∉ t := fun hm => h (List.mem_cons_of_mem c hm)
    unfold findFencedAux
    rw [fencedAt_none h]
    exact ih ht

theorem locateJson_none_of_no_lbrace {raw : String}
    (h : lbrace ∉ raw.toList) : locateJson raw = none := by
  unfold locateJson
  rw [findFencedAux_none h]
  rw [findBraceAux_none h]
  rfl

/-- C6, main theorem.
Extraction fails with `NoJsonFound` exactly when no JSON candidate can
be located (in particular whenever the text has no opening brace at
all), fails with `MalformedJson span` exactly when the located span is
not accepted by `json.loads`, the concrete examples of the spec behave
as stated, and the two failure kinds are distinct. -/
theorem extraction_error_kinds :
    (∀ raw : String, extractJsonStr raw = .error .NoJsonFound ↔ locateJson raw = none)
    ∧ (∀ raw span, extractJsonStr raw = .error (.MalformedJson span) ↔
        locateJson raw = some span ∧ jsonValid span = false)
    ∧ (∀ raw : String, lbrace ∉ raw.toList → extractJsonStr raw = .error .NoJsonFound)
    ∧ extractJsonStr "There is no JSON here." = .error .NoJsonFound
    ∧ extractJsonStr "\x7b\"client_name\": \x7d"
        = .error (.MalformedJson "\x7b\"client_name\": \x7d")
    ∧ (∀ span, (ExtractErr.NoJsonFound : ExtractErr) ≠ .MalformedJson span) := by
  refine ⟨?_, ?_, ?_, by decide, by decide, fun span h => by cases h⟩
  · intro raw
    cases h : locateJson raw with
    | none => simp [extractJsonStr, h]
    | some v =>
      simp only [extractJsonStr, h]
      split <;> simp
  · intro raw span
    cases h : locateJson raw with
    | none => simp [extractJsonStr, h]
    | some v =>
      simp only [extractJsonStr, h]
      split <;> rename_i hv
      · constructor
        · intro hh; cases hh
        · rintro ⟨hs, hb⟩
          obtain rfl : v = span := Option.some.inj hs
          rw [hv] at hb; cases hb
      · constructor
        · intro hh
          injection Except.error.inj hh with hspan
          subst hspan
          exact ⟨rfl, by simpa using hv⟩
        · rintro ⟨hs, _⟩
          obtain rfl : v = span := Option.some.inj hs
          rfl
  · intro raw h
    unfold extractJsonStr
    rw [locateJson_none_of_no_lbrace h]

/-- C6, witness. -/
theorem extraction_error_witness :
    extractJsonStr "plain transcript text" = .error .NoJsonFound :=
  extraction_error_kinds.2.2.1 "plain transcript text" (by decide)

/-! ### C1: invariant closure of the reconciler -/

theorem round2_zero : round2 0 = 0 := by with_unfolding_all decide

theorem fillDates_spec (now : Date) (y : InvoiceData) :
    (fillDates now y).invoice_date.isSome = true
    ∧ (y.invoice_date = none → (fillDates now y).invoice_date = some (formatDate now))
    ∧ (fillDates now y).due_date.isSome = true
    ∧ (y.due_date = none → (fillDates now y).due_date = some
        (match parseDate ((fillDates now y).invoice_date.getD "") with
         | some d => formatDate (addDays d 30)
         | none => formatDate (addDays now 30))) := by
  refine ⟨?_, ?_, ?_, ?_⟩
  · rw [fillDates_invoice_date]
    split_ifs with h
    · rfl
    · push_neg at h
      exact Option.isSome_iff_ne_none.mpr h.1
  · intro h
    rw [fillDates_invoice_date, if_pos (Or.inl h)]
  · rw [fillDates_due_date]
    by_cases hc : (y.due_date = none ∨ y.due_date = some "")
    · rw [if_pos hc]; rfl
    · rw [if_neg hc]
      push_neg at hc
      exact Option.isSome_iff_ne_none.mpr hc.1
  · intro h
    rw [fillDates_due_date, fillDates_invoice_date, if_pos (Or.inl h)]
    cases hif : (if y.invoice_date = none ∨ y.invoice_date = some ""
                 then some (formatDate now) else y.invoice_date) with
    | none => rfl
    | some s => rfl

/-- C1, main theorem.
Every record produced by `autofill_invoice_data` satisfies the
monetary and date invariants exactly: `subtotal` is the rounded sum of
the item totals (`0.0` for an empty item list), `tax_amount` is
`round(subtotal * tax_rate, 2)` with an unset `tax_rate` treated as 0,
`grand_total` is `round(subtotal + tax_amount, 2)`, `invoice_date` is
set (to the processing date when it was absent), and `due_date` is set
(to `invoice_date + 30 days` when absent, falling back to
`now + 30 days` when `invoice_date` does not parse). -/
theorem reconcile_invariant_closure (now : Date) (r : InvoiceData)
    (_hv : validRecord r) :
    ((autofill_invoice_data now r).subtotal
        = some (round2 (sumTotals (autofill_invoice_data now r).items)))
    ∧ ((autofill_invoice_data now r).items = [] →
        (autofill_invoice_data now r).subtotal = some 0)
    ∧ ((autofill_invoice_data now r).tax_amount
        = some (round2 ((autofill_invoice_data now r).subtotal.getD 0
            * (autofill_invoice_data now r).tax_rate.getD 0)))
    ∧ ((autofill_invoice_data now r).grand_total
        = some (round2 ((autofill_invoice_data now r).subtotal.getD 0
            + (autofill_invoice_data now r).tax_amount.getD 0)))
    ∧ (autofill_invoice_data now r).invoice_date.isSome = true
    ∧ (r.invoice_date = none →
        (autofill_invoice_data now r).invoice_date = some (formatDate now))
    ∧ (autofill_invoice_data now r).due_date.isSome = true
    ∧ (r.due_date = none →
        (autofill_invoice_data now r).due_date = some
          (match parseDate ((autofill_invoice_data now r).invoice_date.getD "") with
           | some d => formatDate (addDays d 30)
           | none => formatDate (addDays now 30))) := by
  have hs := fillDates_spec now (fillTotals (fillItems (fillClient r)))
  refine ⟨by simp [autofill_invoice_data], ?_, by simp [autofill_invoice_data],
    by simp [autofill_invoice_data], hs.1, ?_, hs.2.2.1, ?_⟩
  · intro h
    simp only [autofill_invoice_data, fillDates_items, fillTotals_items,
      fillItems_items, fillClient_items] at h
    simp [autofill_invoice_data, h, sumTotals, round2_zero]
  · intro h
    exact hs.2.1 (by simpa using h)
  · intro h
    exact hs.2.2.2 (by simpa using h)

/-- C1, witness. -/
theorem reconcile_invariant_witness :
    (autofill_invoice_data ⟨2026, 10, 12⟩
        (bareRecord [{ description := "Laptop", quantity := 2,
                       unit_price := 1200, total := none }])).subtotal
      = some (round2 (sumTotals (autofill_invoice_data ⟨2026, 10, 12⟩
          (bareRecord [{ description := "Laptop", quantity := 2,
                         unit_price := 1200, total := none }])).items)) :=
  (reconcile_invariant_closure ⟨2026, 10, 12⟩ _ (by with_unfolding_all decide)).1

/-! ### C8: the reconciler is not total — an uncaught `OverflowError`

The `try` block of the date pass catches only
`(ValueError, TypeError)`.  `OverflowError`, raised by
`invoice_date_dt + timedelta(days=30)` when the parsed date lies within
30 days of `datetime.max` (year 9999), is neither, so it escapes
`autofill_invoice_data` — on a structurally valid record such as
`{invoice_date: "9999-12-31"}` with `due_date` unset. -/

theorem addDaysE_ok {d : Date} {n : Int} {x : Date}
    (h : addDaysE d n = .ok x) : x = addDays d n := by
  simp only [addDaysE] at h
  split_ifs at h
  exact (Except.ok.inj h).symm

/-- Wherever the fallible date pass returns, it returns exactly the
value of its non-raising projection `fillDates`. -/
theorem fillDatesE_ok {now : Date} {r r' : InvoiceData}
    (h : fillDatesE now r = .ok r') : r' = fillDates now r := by
  simp only [fillDatesE] at h
  by_cases hdue : (r.due_date = none ∨ r.due_date = some "")
  · rw [if_pos hdue] at h
    cases hinv : (if r.invoice_date = none ∨ r.invoice_date = some ""
                  then some (formatDate now) else r.invoice_date) with
    | none =>
      simp only [hinv] at h
      cases hadd : addDaysE now 30 with
      | ok d30 =>
        simp only [hadd] at h
        obtain rfl := Except.ok.inj h
        simp only [fillDates]
        rw [if_pos hdue]
        simp only [hinv]
        rw [addDaysE_ok hadd]
      | error e => simp only [hadd] at h; cases h
    | some s =>
      simp only [hinv] at h
      cases hp : parseDate s with
      | some d =>
        simp only [hp] at h
        cases hadd : addDaysE d 30 with
        | ok d30 =>
          simp only [hadd] at h
          obtain rfl := Except.ok.inj h
          simp only [fillDates]
          rw [if_pos hdue]
          simp only [hinv, hp]
          rw [addDaysE_ok hadd]
        | error e => simp only [hadd] at h; cases h
      | none =>
        simp only [hp] at h
        cases hadd : addDaysE now 30 with
        | ok d30 =>
          simp only [hadd] at h
          obtain rfl := Except.ok.inj h
          simp only [fillDates]
          rw [if_pos hdue]
          simp only [hinv, hp]
          rw [addDaysE_ok hadd]
        | error e => simp only [hadd] at h; cases h
  · rw [if_neg hdue] at h
    obtain rfl := Except.ok.inj h
    simp only [fillDates]
    rw [if_neg hdue]

/-- Wherever the fallible reconciler returns, it returns exactly what
the non-raising model `autofill_invoice_data` computes — the two
embeddings differ only on the uncaught-exception path. -/
theorem autofill_invoice_dataE_ok {now : Date} {r r' : InvoiceData}
    (h : autofill_invoice_dataE now r = .ok r') :
    r' = autofill_invoice_data now r :=
  fillDatesE_ok h

def overflowRecord : InvoiceData :=
  { bareRecord [] with invoice_date := some "9999-12-31" }

/-- C8, code evaluated at the failing input.
The claim that reconcile never raises is false: the structurally valid
record `{invoice_date: "9999-12-31"}` with `due_date` unset passes
construction, its `invoice_date` parses (`strptime` succeeds, so the
`except (ValueError, TypeError)` clause is not entered), and
`+ timedelta(days=30)` overflows `datetime.max`, so the fallible
embedding of `autofill_invoice_data` surfaces an uncaught
`OverflowError`.  On a benign record the fallible embedding agrees with
the non-raising model. -/
theorem reconcile_raises_overflow :
    validRecord overflowRecord
    ∧ parseDate "9999-12-31" = some { year := 9999, month := 12, day := 31 }
    ∧ addDaysE { year := 9999, month := 12, day := 31 } 30 = .error .OverflowError
    ∧ autofill_invoice_dataE ⟨2026, 10, 12⟩ overflowRecord = .error .OverflowError
    ∧ autofill_invoice_dataE ⟨2026, 10, 12⟩ (bareRecord [])
        = .ok (autofill_invoice_data ⟨2026, 10, 12⟩ (bareRecord [])) := by
  refine ⟨by decide, by decide, by decide, by with_unfolding_all decide,
    by with_unfolding_all decide⟩

/-! ### C2: idempotence of the reconciler -/

theorem fillItem_fillItem (it : InvoiceItem) : fillItem (fillItem it) = fillItem it := by
  by_cases hc : (it.unit_price = 0 ∧ it.description ≠ "")
  · cases hl : catalogLookup (pyNormalize it.description) with
    | none => simp [fillItem, hc.1, hc.2, hl]
    | some p =>
      have hp0 : p ≠ 0 := (catalogLookup_pos hl).ne'
      simp [fillItem, hc.1, hc.2, hl, hp0]
  · simp [fillItem, hc]

theorem fillClient_guards_off {r : InvoiceData} {name : String} {info : UserInfo}
    (h1 : r.client_name = some name) (h2 : name ≠ "")
    (h3 : lookupUser (pyNormalize name) = some info) :
    ¬((fillClient r).client_address = none ∨ (fillClient r).client_address = some "")
    ∧ ¬((fillClient r).tax_rate = none ∨ (fillClient r).tax_rate = some 0.08) := by
  obtain ⟨haddr, hrate, -, -⟩ := lookupUser_facts h3
  have haddr' : (fillClient r).client_address =
      (if r.client_address = none ∨ r.client_address = some ""
       then some info.address else r.client_address) := by
    simp only [fillClient, h1, h3]
    rw [if_neg h2]
  have htr' : (fillClient r).tax_rate =
      (if r.tax_rate = none ∨ r.tax_rate = some 0.08
       then some info.default_tax_rate else r.tax_rate) := by
    simp only [fillClient, h1, h3]
    rw [if_neg h2]
  refine ⟨?_, ?_⟩
  · rw [haddr']
    split_ifs with hc
    · rintro (h | h)
      · exact h.elim
      · exact haddr (Option.some.inj h)
    · exact hc
  · rw [htr']
    split_ifs with hc
    · rintro (h | h)
      · exact h.elim
      · exact hrate (Option.some.inj h)
    · exact hc

theorem autofill_client_address (now : Date) (r : InvoiceData) :
    (autofill_invoice_data now r).client_address = (fillClient r).client_address := by
  simp [autofill_invoice_data]

theorem fillClient_autofill (now : Date) (r : InvoiceData) :
    fillClient (autofill_invoice_data now r) = autofill_invoice_data now r := by
  have hname : (autofill_invoice_data now r).client_name = r.client_name := by
    simp [autofill_invoice_data]
  cases hn : r.client_name with
  | none =>
    simp only [fillClient, hname, hn]
  | some name =>
    simp only [fillClient, hname, hn]
    by_cases hne : name = ""
    · rw [if_pos hne]
    · rw [if_neg hne]
      cases hl : lookupUser (pyNormalize name) with
      | none => rfl
      | some info =>
        obtain ⟨hca, htr⟩ := fillClient_guards_off hn hne hl
        rw [← autofill_client_address now r] at hca
        rw [← autofill_tax_rate now r] at htr
        simp only [if_neg hca, if_neg htr]
        rw [← hn, ← hname]

theorem fillItems_autofill (now : Date) (r : InvoiceData) :
    fillItems (autofill_invoice_data now r) = autofill_invoice_data now r := by
  unfold fillItems
  have hi : (autofill_invoice_data now r).items.map fillItem
      = (autofill_invoice_data now r).items := by
    have : (autofill_invoice_data now r).items = r.items.map fillItem := by
      simp [autofill_invoice_data]
    rw [this, List.map_map]
    exact congrArg (fun f => List.map f r.items) (funext fillItem_fillItem)
  rw [hi]

theorem fillTotals_autofill (now : Date) (r : InvoiceData) :
    fillTotals (autofill_invoice_data now r) = autofill_invoice_data now r := by
  simp only [fillTotals]
  have h1 : some (round2 (sumTotals (autofill_invoice_data now r).items))
      = (autofill_invoice_data now r).subtotal := by
    simp [autofill_invoice_data]
  have h2 : some (round2 (round2 (sumTotals (autofill_invoice_data now r).items)
        * (autofill_invoice_data now r).tax_rate.getD 0))
      = (autofill_invoice_data now r).tax_amount := by
    simp [autofill_invoice_data]
  have h3 : some (round2 (round2 (sumTotals (autofill_invoice_data now r).items)
        + round2 (round2 (sumTotals (autofill_invoice_data now r).items)
            * (autofill_invoice_data now r).tax_rate.getD 0)))
      = (autofill_invoice_data now r).grand_total := by
    simp [autofill_invoice_data]
  rw [h1, h2, h3]

theorem formatDate_ne_empty (d : Date) : formatDate d ≠ "" := by
  intro h
  have hlen := congrArg String.length h
  simp [formatDate, String.length_append] at hlen
  exact (by decide : "-".length ≠ 0) hlen.1.1.1.2

theorem dueFill_is_formatDate (now : Date) (o : Option String) :
    ∃ z, (match o with
          | some s =>
            match parseDate s with
            | some d => formatDate (addDays d 30)
            | none => formatDate (addDays now 30)
          | none => formatDate (addDays now 30)) = formatDate z := by
  cases o with
  | none => exact ⟨addDays now 30, rfl⟩
  | some s =>
    cases hp : parseDate s with
    | none => exact ⟨addDays now 30, by simp [hp]⟩
    | some d => exact ⟨addDays d 30, by simp [hp]⟩

theorem fillDates_autofill (now : Date) (r : InvoiceData) :
    fillDates now (autofill_invoice_data now r) = autofill_invoice_data now r := by
  have hinv0 : ¬((fillDates now (fillTotals (fillItems (fillClient r)))).invoice_date = none
      ∨ (fillDates now (fillTotals (fillItems (fillClient r)))).invoice_date = some "") := by
    rw [fillDates_invoice_date]
    split_ifs with hc
    · rintro (h | h)
      · exact h.elim
      · exact formatDate_ne_empty now (Option.some.inj h)
    · exact hc
  have hdue0 : ¬((fillDates now (fillTotals (fillItems (fillClient r)))).due_date = none
      ∨ (fillDates now (fillTotals (fillItems (fillClient r)))).due_date = some "") := by
    rw [fillDates_due_date]
    by_cases hc : ((fillTotals (fillItems (fillClient r))).due_date = none
        ∨ (fillTotals (fillItems (fillClient r))).due_date = some "")
    · rw [if_pos hc]
      obtain ⟨z, hz⟩ := dueFill_is_formatDate now
        (if (fillTotals (fillItems (fillClient r))).invoice_date = none
            ∨ (fillTotals (fillItems (fillClient r))).invoice_date = some ""
         then some (formatDate now)
         else (fillTotals (fillItems (fillClient r))).invoice_date)
      rintro (h | h)
      · exact Option.noConfusion h
      · exact formatDate_ne_empty z (hz.symm.trans (Option.some.inj h))
    · rw [if_neg hc]
      exact hc
  have hinv : ¬((autofill_invoice_data now r).invoice_date = none
      ∨ (autofill_invoice_data now r).invoice_date = some "") := hinv0
  have hdue : ¬((autofill_invoice_data now r).due_date = none
      ∨ (autofill_invoice_data now r).due_date = some "") := hdue0
  simp only [fillDates]
  rw [if_neg hinv, if_neg hdue]

/-- C2, main theorem.
Reconciliation is idempotent: with the processing date held fixed,
running `autofill_invoice_data` on its own output returns that output
unchanged. -/
theorem reconcile_idempotent (now : Date) (r : InvoiceData)
    (_hv : validRecord r) :
    autofill_invoice_data now (autofill_invoice_data now r)
      = autofill_invoice_data now r := by
  conv_lhs => rw [autofill_invoice_data]
  rw [fillClient_autofill, fillItems_autofill, fillTotals_autofill,
    fillDates_autofill]

/-- C2, witness. -/
theorem reconcile_idempotent_witness :
    autofill_invoice_data ⟨2026, 10, 12⟩ (autofill_invoice_data ⟨2026, 10, 12⟩
        (bareRecord [{ description := "Laptop", quantity := 2,
                       unit_price := 1200, total := none }]))
      = autofill_invoice_data ⟨2026, 10, 12⟩
        (bareRecord [{ description := "Laptop", quantity := 2,
                       unit_price := 1200, total := none }]) :=
  reconcile_idempotent ⟨2026, 10, 12⟩ _ (by with_unfolding_all decide)

/-! ### C5: candidate-location strategy of the extractor

The spec describes the fallback as "the outermost balanced `\x7b...\x7d`
span".  The code's fallback regex `(\x7b.*\x7d)` has no balance check:
it spans from the first opening brace to the last closing brace of the
whole text.  Below, `specBalancedSpan` / `specLocateJson` follow the
spec's words, for comparison with the embedded code. -/

/-- Balanced-brace scan: consume characters, tracking depth, until the
brace that closes the opening one. -/
def takeBalanced : List Char → Nat → Option (List Char)
  | [], _ => none
  | c :: t, d =>
    if c = rbrace then
      if d = 1 then some [c]
      else (takeBalanced t (d - 1)).map (fun r => c :: r)
    else if c = lbrace then (takeBalanced t (d + 1)).map (fun r => c :: r)
    else (takeBalanced t d).map (fun r => c :: r)

/-- Follows the spec's words (§4.3): the outermost balanced
`\x7b...\x7d` span, starting at the first opening brace. -/
def specBalancedSpan (raw : String) : Option String :=
  match raw.toList.dropWhile (fun c => !(c = lbrace)) with
  | [] => none
  | c :: t => (takeBalanced t 1).map (fun r => String.mk (c :: r))

/-- Follows the spec's words (§4.3): prefer the fenced block, otherwise
take the outermost balanced brace span. -/
def specLocateJson (raw : String) : Option String :=
  match findFencedAux raw.toList with
  | some g => some (String.mk g)
  | none => specBalancedSpan raw

/-- C5, counterexample.
On `"\x7b\"a\": 1\x7d tail \x7d"` (no fence present) the code's
fallback takes the greedy span through the trailing stray `\x7d`, while
the spec's balanced scan stops at the matching brace — the claim's
description of the fallback is false on the code. -/
theorem brace_fallback_not_balanced :
    locateJson "\x7b\"a\": 1\x7d tail \x7d" = some "\x7b\"a\": 1\x7d tail \x7d"
    ∧ specLocateJson "\x7b\"a\": 1\x7d tail \x7d" = some "\x7b\"a\": 1\x7d"
    ∧ locateJson "\x7b\"a\": 1\x7d tail \x7d"
        ≠ specLocateJson "\x7b\"a\": 1\x7d tail \x7d" :=
  ⟨by decide, by decide, by decide⟩

theorem head_dropWhile_rbrace (t : List Char) (h : rbrace ∈ t) :
    ∃ u', t.dropWhile (fun x => !(x = rbrace)) = rbrace :: u' := by
  induction t with
  | nil => cases h
  | cons a t' ih =>
    by_cases ha : a = rbrace
    · subst ha
      exact ⟨t', List.dropWhile_cons_of_neg (by simp)⟩
    · rw [List.dropWhile_cons_of_pos (by simp [ha])]
      refine ih ?_
      rcases List.mem_cons.mp h with h1 | h2
      · exact absurd h1.symm ha
      · exact h2

theorem revSplit (p : Char → Bool) (t : List Char) :
    t = (t.reverse.dropWhile p).reverse ++ (t.reverse.takeWhile p).reverse := by
  have h := congrArg List.reverse (List.takeWhile_append_dropWhile p t.reverse)
  rw [List.reverse_append, List.reverse_reverse] at h
  exact h.symm

theorem notmem_takeWhile_rev (t : List Char) :
    rbrace ∉ (t.reverse.takeWhile (fun x => !(x = rbrace))).reverse := by
  intro hx
  have := List.mem_takeWhile_imp (List.mem_reverse.mp hx)
  simp at this

theorem uptoLast_unique {t s' post : List Char} (h2 : t = s' ++ post)
    (hlast : s'.getLast? = some rbrace) (hpost : rbrace ∉ post) :
    s' = (t.reverse.dropWhile (fun x => !(x = rbrace))).reverse := by
  subst h2
  rw [List.reverse_append]
  rw [List.dropWhile_append_of_pos ?hall]
  case hall =>
    intro x hx
    have hxne : x ≠ rbrace := fun hxe => hpost (hxe ▸ List.mem_reverse.mp hx)
    simp [hxne]
  obtain ⟨ys, rfl⟩ := List.getLast?_eq_some_iff.mp hlast
  rw [List.reverse_append]
  show ys ++ [rbrace] = (List.dropWhile _ (rbrace :: ys.reverse)).reverse
  rw [List.dropWhile_cons_of_neg (by simp)]
  simp

theorem findBraceAux_some_iff (l : List Char) : ∀ s : List Char,
    findBraceAux l = some s ↔
      ∃ pre post, l = pre ++ s ++ post ∧ lbrace ∉ pre ∧ rbrace ∉ post
        ∧ s.head? = some lbrace ∧ s.getLast? = some rbrace := by
  induction l with
  | nil =>
    intro s
    constructor
    · intro h; cases h
    · rintro ⟨pre, post, hl, -, -, hh, -⟩
      obtain ⟨h1, -⟩ := List.append_eq_nil.mp hl.symm
      obtain ⟨-, h2⟩ := List.append_eq_nil.mp h1
      subst h2; cases hh
  | cons c t ih =>
    intro s
    simp only [findBraceAux]
    by_cases hcb : (c = lbrace ∧ rbrace ∈ t)
    · obtain ⟨hc, hmem⟩ := hcb
      subst hc
      rw [if_pos (by simp [List.contains, List.elem_iff, hmem])]
      constructor
      · intro h
        obtain rfl := (Option.some.inj h).symm
        obtain ⟨u', hu⟩ := head_dropWhile_rbrace t.reverse (List.mem_reverse.mpr hmem)
        refine ⟨[], (t.reverse.takeWhile (fun x => !(x = rbrace))).reverse, ?_,
          by simp, notmem_takeWhile_rev t, rfl, ?_⟩
        · simp only [List.nil_append, List.cons_append]
          exact congrArg (List.cons lbrace) (revSplit (fun x => !(x = rbrace)) t)
        · rw [hu, List.reverse_cons, ← List.cons_append]
          exact List.getLast?_concat _
      · rintro ⟨pre, post, hl, hpre, hpost, hh, hlast⟩
        cases pre with
        | cons p0 pre' =>
          exfalso
          injection hl with h1 h2
          exact hpre (by rw [h1]; exact List.mem_cons_self _ _)
        | nil =>
          simp only [List.nil_append] at hl
          cases s with
          | nil => cases hh
          | cons s0 s' =>
            rw [List.cons_append] at hl
            injection hl with h1 h2
            obtain rfl : s0 = lbrace := h1.symm
            have hs'ne : s' ≠ [] := by
              rintro rfl
              simp only [List.getLast?_singleton] at hlast
              exact (by decide : lbrace ≠ rbrace) (Option.some.inj hlast)
            have hlast' : s'.getLast? = some rbrace := by
              cases s' with
              | nil => exact absurd rfl hs'ne
              | cons a b => simpa using hlast
            rw [uptoLast_unique h2 hlast' hpost]
    · rw [if_neg ?hcond]
      case hcond =>
        simp only [Bool.and_eq_true, decide_eq_true_eq]
        rintro ⟨ha, hb⟩
        exact hcb ⟨ha, by simpa [List.contains, List.elem_iff] using hb⟩
      rw [ih s]
      constructor
      · rintro ⟨pre, post, hl, hpre, hpost, hh, hlast⟩
        have hcl : c ≠ lbrace := by
          intro hc
          apply hcb
          refine ⟨hc, ?_⟩
          have hs : rbrace ∈ s := List.mem_of_getLast?_eq_some hlast
          rw [hl]
          exact List.mem_append.mpr (Or.inl (List.mem_append.mpr (Or.inr hs)))
        refine ⟨c :: pre, post, ?_, ?_, hpost, hh, hlast⟩
        · rw [List.cons_append, List.cons_append, hl]
        · intro hm
          rcases List.mem_cons.mp hm with h1 | h1
          · exact hcl h1.symm
          · exact hpre h1
      · rintro ⟨pre, post, hl, hpre, hpost, hh, hlast⟩
        cases pre with
        | nil =>
          exfalso
          simp only [List.nil_append] at hl
          cases s with
          | nil => cases hh
          | cons s0 s' =>
            rw [List.cons_append] at hl
            injection hl with h1 h2
            have hs0l : s0 = lbrace := Option.some.inj hh
            apply hcb
            refine ⟨h1.trans hs0l, ?_⟩
            have hs : rbrace ∈ s0 :: s' := List.mem_of_getLast?_eq_some hlast
            rcases List.mem_cons.mp hs with h3 | h3
            · exact absurd (h3.trans hs0l) (by decide)
            · rw [h2]
              exact List.mem_append.mpr (Or.inl h3)
        | cons p0 pre' =>
          injection hl with h1 h2
          exact ⟨pre', post, h2, fun hm => hpre (List.mem_cons_of_mem _ hm),
            hpost, hh, hlast⟩

/-- C5, amended main theorem.
The extractor prefers a fenced block; when no fenced block matches, the
fallback candidate is exactly the greedy span from the first opening
brace of the text (no opening brace before it) through the last closing
brace of the text (no closing brace after it), with no balance check. -/
theorem extraction_candidate_order (raw : String) :
    (∀ g, findFencedAux raw.toList = some g → locateJson raw = some (String.mk g))
    ∧ (findFencedAux raw.toList = none → ∀ s : String,
        locateJson raw = some s ↔
          ∃ pre post : List Char, raw.toList = pre ++ s.toList ++ post
            ∧ lbrace ∉ pre ∧ rbrace ∉ post
            ∧ s.toList.head? = some lbrace ∧ s.toList.getLast? = some rbrace) := by
  constructor
  · intro g hg
    unfold locateJson
    rw [hg]
  · intro hf s
    unfold locateJson
    rw [hf]
    show (findBraceAux raw.toList).map String.mk = some s ↔ _
    constructor
    · intro h
      obtain ⟨ls, hls, hmk⟩ := Option.map_eq_some'.mp h
      subst hmk
      exact (findBraceAux_some_iff _ _).mp hls
    · rintro ⟨pre, post, h1, h2, h3, h4, h5⟩
      rw [(findBraceAux_some_iff _ _).mpr ⟨pre, post, h1, h2, h3, h4, h5⟩]
      rfl

/-- C5, witness for the amended theorem. -/
theorem extraction_candidate_order_witness :
    locateJson "```json \x7b\"a\": 1\x7d ```"
      = some (String.mk ("\x7b\"a\": 1\x7d".toList)) :=
  (extraction_candidate_order "```json \x7b\"a\": 1\x7d ```").1
    "\x7b\"a\": 1\x7d".toList (by decide)

/-! ### C7: copy-on-reconcile over the item heap -/

theorem getD_append_len (pre : Heap) (x : InvoiceItem) (rest : Heap) :
    (pre ++ x :: rest).getD pre.length defaultItem = x := by
  induction pre with
  | nil => rfl
  | cons a as ih => simpa using ih

theorem set_append_len (pre : Heap) (x y : InvoiceItem) (rest : Heap) :
    (pre ++ x :: rest).set pre.length y = pre ++ y :: rest := by
  induction pre with
  | nil => rfl
  | cons a as ih => simp [List.set, ih]

theorem getD_append_left {l l' : Heap} {i : Nat} (hi : i < l.length) :
    (l ++ l').getD i defaultItem = l.getD i defaultItem := by
  simp [List.getD, List.getElem?_append_left hi]

theorem foldl_set_range (f : InvoiceItem → InvoiceItem) :
    ∀ (mid pre : Heap),
      (List.range' pre.length mid.length).foldl
        (fun h i => h.set i (f (h.getD i defaultItem))) (pre ++ mid)
      = pre ++ mid.map f := by
  intro mid
  induction mid with
  | nil => intro pre; simp
  | cons x rest ih =>
    intro pre
    rw [show (x :: rest).length = rest.length + 1 from rfl, List.range'_succ]
    simp only [List.foldl_cons]
    rw [getD_append_len, set_append_len]
    have h2 := ih (pre ++ [f x])
    rw [List.length_append] at h2
    simp only [List.append_assoc, List.singleton_append, List.length_singleton] at h2
    simpa using h2

theorem map_getD_range (mid : Heap) : ∀ (pre : Heap),
    (List.range' pre.length mid.length).map
      (fun i => (pre ++ mid).getD i defaultItem) = mid := by
  induction mid with
  | nil => intro pre; simp
  | cons x rest ih =>
    intro pre
    rw [show (x :: rest).length = rest.length + 1 from rfl, List.range'_succ]
    simp only [List.map_cons]
    rw [getD_append_len]
    have h2 := ih (pre ++ [x])
    rw [List.length_append] at h2
    simp only [List.append_assoc, List.singleton_append, List.length_singleton] at h2
    simpa using h2

theorem autofillObj_heap (now : Date) (σ : Heap) (o : InvoiceObj) :
    (autofillObj now σ o).1
      = σ ++ (o.itemRefs.map (fun i => σ.getD i defaultItem)).map fillItem := by
  simp only [autofillObj]
  exact foldl_set_range fillItem (o.itemRefs.map (fun i => σ.getD i defaultItem)) σ

/-- C7, main theorem.
Reconciliation has no side effect on the caller's record: re-running
`autofill_invoice_data` over an explicit heap of item objects — the
deep copy allocating fresh item objects, the item loop mutating them in
place — leaves the record observed through the caller's original object
untouched, while the returned object observes exactly the record that
the pure reconciler computes. -/
theorem reconcile_copy_on_reconcile (now : Date) (σ : Heap) (o : InvoiceObj)
    (h : ∀ i ∈ o.itemRefs, i < σ.length) :
    viewRecord (autofillObj now σ o).1 o = viewRecord σ o
    ∧ viewRecord (autofillObj now σ o).1 (autofillObj now σ o).2
        = autofill_invoice_data now (viewRecord σ o) := by
  constructor
  · have hitems : o.itemRefs.map (fun i => ((autofillObj now σ o).1).getD i defaultItem)
        = o.itemRefs.map (fun i => σ.getD i defaultItem) := by
      apply List.map_congr_left
      intro i hi
      rw [autofillObj_heap]
      exact getD_append_left (h i hi)
    unfold viewRecord
    rw [hitems]
  · have hread : (List.range' σ.length
          (o.itemRefs.map (fun i => σ.getD i defaultItem)).length).map
        (fun i => ((autofillObj now σ o).1).getD i defaultItem)
        = (o.itemRefs.map (fun i => σ.getD i defaultItem)).map fillItem := by
      rw [autofillObj_heap,
        show (o.itemRefs.map (fun i => σ.getD i defaultItem)).length
            = ((o.itemRefs.map (fun i => σ.getD i defaultItem)).map fillItem).length
          from (List.length_map _ _).symm]
      exact map_getD_range _ σ
    have hfi : ({ fillClient (viewRecord σ o) with
          items := (o.itemRefs.map (fun i => σ.getD i defaultItem)).map fillItem }
        : InvoiceData) = fillItems (fillClient (viewRecord σ o)) := by
      unfold fillItems
      rw [fillClient_items]
      rfl
    have h2 : (autofillObj now σ o).2 = objOfRecord
        (fillDates now (fillTotals
          { fillClient (viewRecord σ o) with
            items := (List.range' σ.length
                (o.itemRefs.map (fun i => σ.getD i defaultItem)).length).map
              (fun i => ((autofillObj now σ o).1).getD i defaultItem) }))
        (List.range' σ.length (o.itemRefs.map (fun i => σ.getD i defaultItem)).length)
      := rfl
    rw [h2, hread, hfi]
    have hit : (fillDates now (fillTotals (fillItems (fillClient (viewRecord σ o))))).items
        = (o.itemRefs.map (fun i => σ.getD i defaultItem)).map fillItem := by
      simp only [fillDates_items, fillTotals_items, fillItems_items, fillClient_items]
      rfl
    unfold viewRecord objOfRecord
    rw [hread, ← hit]
    rfl

def demoObj : InvoiceObj :=
  { client_name := none, client_address := none, invoice_number := none,
    invoice_date := none, due_date := none, itemRefs := [0],
    subtotal := none, tax_rate := none, tax_amount := none,
    grand_total := none, notes := none }

/-- C7, witness. -/
theorem reconcile_copy_on_reconcile_witness :
    viewRecord (autofillObj ⟨2026, 10, 12⟩
        [{ description := "Laptop", quantity := 2, unit_price := 1200,
           total := none }] demoObj).1 demoObj
      = viewRecord [{ description := "Laptop", quantity := 2, unit_price := 1200,
                      total := none }] demoObj :=
  (reconcile_copy_on_reconcile ⟨2026, 10, 12⟩
    [{ description := "Laptop", quantity := 2, unit_price := 1200, total := none }]
    demoObj (by decide)).1

end VoiceInvoice
